import Mathlib

/-!
Shallow embedding of the data-preparation and filtering pipeline of
`fpl_functions.py` (functions `load_history`, `prepare_data`, `filter_data`).

Pandas dataframes are modelled as lists of records; a missing value (NaN
produced by a failed `Series.map` lookup or an unmatched left-join) is
modelled as `Option.none`.  The float division `total_points_sum / price`
is modelled by `PFloat`, which distinguishes finite rationals from the
IEEE special values `inf`, `-inf` and `nan` that pandas produces on
division by zero.  Machine floats are otherwise represented by exact
rationals.  Network fetches are modelled as explicit functions
`Nat → Except ε (List HistRow)`; `Except.error` models a raised exception.

Columns of the bootstrap payload that no analysed property mentions
(`selected_by_percent`, `value_season`, `points_per_game`, which are only
parsed/copied verbatim) are omitted from the record types.
-/

namespace FPL

/-- Result of a pandas float computation: a finite rational or one of the
IEEE special values produced by division by zero. -/
inductive PFloat where
  | finite : ℚ → PFloat
  | inf : PFloat
  | ninf : PFloat
  | nan : PFloat
deriving DecidableEq

/-- Division `n / d` as pandas performs it on a float column: `d = none`
(a NaN divisor from a failed lookup) gives NaN; `d = 0` gives `±inf`
(NaN when the numerator is also 0); otherwise the exact quotient. -/
def pdiv (n : Int) (d : Option ℚ) : PFloat :=
  match d with
  | none => PFloat.nan
  | some q =>
    if q = 0 then
      if n = 0 then PFloat.nan
      else if 0 < n then PFloat.inf
      else PFloat.ninf
    else PFloat.finite ((n : ℚ) / q)

/-- Round to the nearest integer, ties to even: the rounding used by
numpy/pandas `.round`. -/
def roundHalfEven (q : ℚ) : Int :=
  let f : Int := q.floor
  let r : ℚ := q - (f : ℚ)
  if r < (1 : ℚ) / 2 then f
  else if (1 : ℚ) / 2 < r then f + 1
  else if f % 2 = 0 then f
  else f + 1

/-- Pandas `.round(2)` on a float value: finite values are rounded
half-to-even at two decimals, the special values pass through. -/
def round2 (v : PFloat) : PFloat :=
  match v with
  | PFloat.finite q => PFloat.finite ((roundHalfEven (q * 100) : ℚ) / 100)
  | x => x

/-- One record of the raw bootstrap `elements` table (the columns the
pipeline reads). -/
structure ElementRec where
  id : Nat
  first_name : String
  second_name : String
  team : Nat
  element_type : Nat
  now_cost : Int
  minutes : Nat
  transfers_in : Nat
  total_points : Int
deriving DecidableEq

/-- One record of the bootstrap `element_types` lookup table. -/
structure TypeRec where
  id : Nat
  singular_name : String
deriving DecidableEq

/-- One record of the bootstrap `teams` lookup table. -/
structure TeamRec where
  id : Nat
  name : String
deriving DecidableEq

/-- The decoded bootstrap payload. -/
structure Bootstrap where
  elements : List ElementRec
  element_types : List TypeRec
  teams : List TeamRec

/-- One row returned by `load_player_history`: the five columns kept from
the per-player history resource. -/
structure HistRow where
  element : Nat
  round : Nat
  total_points : Int
  defensive_contribution : Int
  bonus : Int
deriving DecidableEq

/-- A history row after `prepare_data` has added the `player` column
(`none` models the NaN a failed id lookup produces). -/
structure PHistRow where
  element : Nat
  round : Nat
  total_points : Int
  defensive_contribution : Int
  bonus : Int
  player : Option String
deriving DecidableEq

/-- One row of `slim_elements_df` after `prepare_data` (columns remaining
after the final `drop`); `position`/`team_name` are `none` when the
`element_type`/`team` id did not resolve in the lookup. -/
structure SlimRow where
  id : Nat
  minutes : Nat
  transfers_in : Nat
  total_points : Int
  position : Option String
  team_name : Option String
  price : ℚ
  player : String
deriving DecidableEq

/-- A filtered history row with the cumulative `total_points_sum` column
added (`groupby('element')['total_points'].cumsum()`). -/
structure CumRow where
  element : Nat
  round : Nat
  total_points : Int
  defensive_contribution : Int
  bonus : Int
  player : Option String
  total_points_sum : Int
deriving DecidableEq

/-- A row of `fh_key_players_df` after the left merge with the player
metadata and the `total_value` column. -/
structure AnnRow where
  element : Nat
  round : Nat
  total_points : Int
  defensive_contribution : Int
  bonus : Int
  player : Option String
  total_points_sum : Int
  price : Option ℚ
  team_name : Option String
  position : Option String
  total_value : PFloat
deriving DecidableEq

/-- A row of the aggregated `dynamic_table`. -/
structure SummaryRow where
  player : String
  team_name : String
  position : String
  price : ℚ
  total_points : Int
  defensive_contribution : Int
  bonus : Int
  total_value : PFloat
deriving DecidableEq

/-! ### Generic insertion sort

`groupby(..., sort=True)` orders the (deduplicated, hence distinct) group
keys ascending; on distinct keys every correct sort yields the same list,
so `isort` by the key order models that step exactly.  The final
`sort_values('total_points', ascending=False)` uses pandas' default
quicksort, which guarantees no particular order among rows with equal
points; `isort` fixes one concrete descending order, and no property
proved below about the sorted table depends on how ties are ordered
(only on sortedness and on the underlying multiset of rows). -/

/-- Insert `x` into `l`, placing it before the first element `y` with
`le x y`; with a total `le` this is the stable insertion step. -/
def insertSorted (le : α → α → Bool) (x : α) : List α → List α
  | [] => [x]
  | y :: l => if le x y then x :: y :: l else y :: insertSorted le x l

/-- Stable insertion sort by the Boolean relation `le`. -/
def isort (le : α → α → Bool) : List α → List α
  | [] => []
  | x :: l => insertSorted le x (isort le l)

/-! ### History aggregation (`load_history`) -/

/-- The concurrent aggregate fetch of `load_history`: one
`load_player_history` call per id, all results concatenated.  The real
code concatenates in completion order of the thread pool; since the spec
declares the row order insignificant we concatenate in submission order.
`future.result()` re-raises the first failure, so a single failing fetch
fails the whole call; the optional progress callback is pure observation
and is not modelled. -/
def load_history (fetch : Nat → Except ε (List HistRow)) : List Nat → Except ε (List HistRow)
  | [] => Except.ok []
  | id :: rest =>
    match fetch id with
    | Except.error e => Except.error e
    | Except.ok h =>
      match load_history fetch rest with
      | Except.error e => Except.error e
      | Except.ok t => Except.ok (h ++ t)

/-! ### Bootstrap normalisation (`prepare_data`) -/

/-- Pandas `Series.map` over a table indexed by `id`: the value at the
first matching id, `none` (NaN) when the id does not resolve.  (The
bootstrap guarantees unique lookup ids; theorems that depend on
uniqueness assume it explicitly.) -/
def slimOfElement (types : List TypeRec) (teams : List TeamRec) (e : ElementRec) : SlimRow :=
  { id := e.id
    minutes := e.minutes
    transfers_in := e.transfers_in
    total_points := e.total_points
    position := (types.find? (fun t => t.id == e.element_type)).map (fun t => t.singular_name)
    team_name := (teams.find? (fun t => t.id == e.team)).map (fun t => t.name)
    price := (e.now_cost : ℚ) / 10
    player := e.first_name ++ " " ++ e.second_name }

/-- Adds the `player` display-name column to a fetched history row:
`element` mapped through `first_name`, a literal space, and `element`
mapped through `second_name`; a failed lookup gives NaN (`none`). -/
def addPlayerName (elements : List ElementRec) (r : HistRow) : PHistRow :=
  { element := r.element
    round := r.round
    total_points := r.total_points
    defensive_contribution := r.defensive_contribution
    bonus := r.bonus
    player := (elements.find? (fun e => e.id == r.element)).map
      (fun e => e.first_name ++ " " ++ e.second_name) }

/-- The `prepare_data` pipeline: filter to players with minutes, build the
slim table, fetch the histories of the retained players and attach the
display names.  Returns `(slim_elements_df, all_history_df, elements_df)`. -/
def prepare_data (boot : Bootstrap) (fetch : Nat → Except ε (List HistRow)) :
    Except ε (List SlimRow × List PHistRow × List ElementRec) :=
  let elements_df := boot.elements.filter (fun e => decide (0 < e.minutes))
  let slim_elements_df := elements_df.map (slimOfElement boot.element_types boot.teams)
  match load_history fetch (elements_df.map (fun e => e.id)) with
  | Except.error e => Except.error e
  | Except.ok h => Except.ok (slim_elements_df, h.map (addPlayerName elements_df), elements_df)

/-! ### Filtering and aggregation (`filter_data`) -/

/-- The cumulative-points column: pandas
`groupby('element')['total_points'].cumsum()` assigns to each row the sum
of `total_points` over the rows up to and including it (in dataframe
order) that share its `element`. -/
def addCumsum (rows : List PHistRow) : List CumRow :=
  rows.mapIdx (fun i r =>
    { element := r.element
      round := r.round
      total_points := r.total_points
      defensive_contribution := r.defensive_contribution
      bonus := r.bonus
      player := r.player
      total_points_sum :=
        (((rows.take (i + 1)).filter (fun x => x.element == r.element)).map
          (fun x => x.total_points)).sum })

/-- Attach the metadata of one matched slim record (or `none` for an
unmatched left-join row) and compute `total_value = total_points_sum /
price`. -/
def mkAnn (r : CumRow) (m : Option SlimRow) : AnnRow :=
  { element := r.element
    round := r.round
    total_points := r.total_points
    defensive_contribution := r.defensive_contribution
    bonus := r.bonus
    player := r.player
    total_points_sum := r.total_points_sum
    price := m.map (fun x => x.price)
    team_name := m.bind (fun x => x.team_name)
    position := m.bind (fun x => x.position)
    total_value := pdiv r.total_points_sum (m.map (fun x => x.price)) }

/-- The left merge of the cumulated history with
`slim_elements_df[['id','price','team_name','position']]` on
`element = id`: every matching metadata row produces an output row
(duplicate ids duplicate the history row, as a relational join does), and
a row with no match keeps NaN metadata. -/
def mergeMeta (slim : List SlimRow) (rows : List CumRow) : List AnnRow :=
  rows.flatMap (fun r =>
    match slim.filter (fun m => m.id == r.element) with
    | [] => [mkAnn r none]
    | ms => ms.map (fun m => mkAnn r (some m)))

/-- The group key of `dynamic_table`: the tuple
`(player, team_name, position, price)` under the lexicographic order by
which `groupby(..., sort=True)` orders the groups (string columns made
categorical by `astype('category')` keep their lexicographic order;
strings are compared code point by code point, i.e. as their character
lists). -/
def GKey : Type := List Char ×ₗ List Char ×ₗ List Char ×ₗ ℚ

instance : LinearOrder GKey := Prod.Lex.linearOrder _ _

instance decEqKey1 : DecidableEq (List Char ×ₗ ℚ) := instDecidableEqLex _

instance decEqKey2 : DecidableEq (List Char ×ₗ List Char ×ₗ ℚ) := instDecidableEqLex _

instance decEqKey3 : DecidableEq GKey := instDecidableEqLex _

/-- Build a group key. -/
def mkKey (a b c : String) (d : ℚ) : GKey :=
  toLex (a.data, toLex (b.data, toLex (c.data, d)))

/-- Boolean comparison of group keys (lexicographic). -/
def keyLe (a b : GKey) : Bool := decide (a ≤ b)

/-- The group key of an annotated row; `none` when any component is NaN
(pandas `groupby` silently drops such rows). -/
def gkey (r : AnnRow) : Option GKey :=
  match r.player, r.team_name, r.position, r.price with
  | some a, some b, some c, some d => some (mkKey a b c d)
  | _, _, _, _ => none

/-- First component of a key. -/
def keyPlayer (k : GKey) : String := String.mk (ofLex k).1

/-- Second component of a key. -/
def keyTeam (k : GKey) : String := String.mk (ofLex (ofLex k).2).1

/-- Third component of a key. -/
def keyPosition (k : GKey) : String := String.mk (ofLex (ofLex (ofLex k).2).2).1

/-- Fourth component of a key. -/
def keyPrice (k : GKey) : ℚ := (ofLex (ofLex (ofLex k).2).2).2

/-- The aggregated row of one group: sums of `total_points`,
`defensive_contribution` and `bonus` over the rows of the group, and
`total_value = round(total_points / price, 2)`. -/
def aggRow (rows : List AnnRow) (k : GKey) : SummaryRow :=
  let g := rows.filter (fun r => gkey r == some k)
  let pts := (g.map (fun r => r.total_points)).sum
  { player := keyPlayer k
    team_name := keyTeam k
    position := keyPosition k
    price := keyPrice k
    total_points := pts
    defensive_contribution := (g.map (fun r => r.defensive_contribution)).sum
    bonus := (g.map (fun r => r.bonus)).sum
    total_value := round2 (pdiv pts (some (keyPrice k))) }

/-- `groupby(['player','team_name','position','price'], observed=True)`
followed by the sum aggregation: one output row per observed group key,
in ascending key order. -/
def groupAgg (rows : List AnnRow) : List SummaryRow :=
  (isort keyLe (rows.filterMap gkey).dedup).map (aggRow rows)

/-- Descending comparison by `total_points` used for the final
`sort_values('total_points', ascending=False)`. -/
def sumLe (a b : SummaryRow) : Bool := decide (b.total_points ≤ a.total_points)

/-- The group-key tuple of a summary row. -/
def sumKey (s : SummaryRow) : GKey := mkKey s.player s.team_name s.position s.price

/-- The `filter_data` pipeline: position/team subset, history restriction
to the subset's ids and to rounds from `min_week` on, cumulative points,
metadata merge with `total_value`, and the sorted summary table.
Returns `(subset_df, fh_key_players_df, dynamic_table)`. -/
def filter_data (slim_elements_df : List SlimRow) (all_history_df : List PHistRow)
    (selected_teams : List String) (selected_position : String) (min_week : Nat) :
    List SlimRow × List AnnRow × List SummaryRow :=
  let subset0 :=
    if selected_position != "All" then
      slim_elements_df.filter (fun r => r.position == some selected_position)
    else slim_elements_df
  let subset_df :=
    if selected_teams != [] then
      subset0.filter (fun r =>
        match r.team_name with
        | some t => selected_teams.contains t
        | none => false)
    else subset0
  let subset_ids := subset_df.map (fun r => r.id)
  let fh := all_history_df.filter (fun r =>
    subset_ids.contains r.element && decide (min_week ≤ r.round))
  let fh_key_players_df := mergeMeta slim_elements_df (addCumsum fh)
  let dynamic_table := isort sumLe (groupAgg fh_key_players_df)
  (subset_df, fh_key_players_df, dynamic_table)

/-! ### Lemmas about the stable insertion sort -/

/-- The ordering invariant established by a stable sort: consecutive
elements are `le`-related and, when tied (related both ways), still
satisfy the relation `S` they satisfied in the input. -/
def pw (le : α → α → Bool) (S : α → α → Prop) (a b : α) : Prop :=
  le a b = true ∧ (le b a = true → S a b)

theorem insertSorted_perm (le : α → α → Bool) (x : α) (l : List α) :
    List.Perm (insertSorted le x l) (x :: l) := by
  induction l with
  | nil => exact List.Perm.refl _
  | cons y t ih =>
    by_cases h : le x y = true
    · simp [insertSorted, h]
    · simp only [insertSorted, h, if_neg, Bool.not_eq_true]
      exact (ih.cons y).trans (List.Perm.swap x y t)

theorem isort_perm (le : α → α → Bool) (l : List α) : List.Perm (isort le l) l := by
  induction l with
  | nil => exact List.Perm.refl _
  | cons x t ih =>
    exact (insertSorted_perm le x (isort le t)).trans (ih.cons x)

theorem mem_isort {le : α → α → Bool} {l : List α} {a : α} :
    a ∈ isort le l ↔ a ∈ l :=
  (isort_perm le l).mem_iff

theorem insertSorted_pairwise {le : α → α → Bool}
    (htotal : ∀ a b, le a b = true ∨ le b a = true)
    (htrans : ∀ a b c, le a b = true → le b c = true → le a c = true)
    {S : α → α → Prop} (x : α) {l : List α}
    (hl : l.Pairwise (pw le S)) (hx : ∀ y ∈ l, S x y) :
    (insertSorted le x l).Pairwise (pw le S) := by
  induction l with
  | nil =>
    simp [insertSorted]
  | cons y t ih =>
    rcases List.pairwise_cons.mp hl with ⟨hy, ht⟩
    by_cases h : le x y = true
    · simp only [insertSorted, h, if_pos]
      refine List.pairwise_cons.mpr ⟨?_, hl⟩
      intro z hz
      refine ⟨?_, fun _ => hx z hz⟩
      rcases List.mem_cons.mp hz with rfl | hz'
      · exact h
      · exact htrans x y z h (hy z hz').1
    · simp only [insertSorted, h, if_neg, Bool.not_eq_true]
      refine List.pairwise_cons.mpr
        ⟨?_, ih ht (fun z hz => hx z (List.mem_cons_of_mem y hz))⟩
      intro z hz
      rcases List.mem_cons.mp ((insertSorted_perm le x t).mem_iff.mp hz) with hzx | hz'
      · subst hzx
        rcases htotal z y with hzy | hyz
        · exact absurd hzy h
        · exact ⟨hyz, fun hzy => absurd hzy h⟩
      · exact hy z hz'

theorem isort_pairwise {le : α → α → Bool}
    (htotal : ∀ a b, le a b = true ∨ le b a = true)
    (htrans : ∀ a b c, le a b = true → le b c = true → le a c = true)
    {S : α → α → Prop} {l : List α} (hS : l.Pairwise S) :
    (isort le l).Pairwise (pw le S) := by
  induction l with
  | nil => exact List.Pairwise.nil
  | cons x t ih =>
    rcases List.pairwise_cons.mp hS with ⟨hx, ht⟩
    exact insertSorted_pairwise htotal htrans x (ih ht)
      (fun y hy => hx y ((isort_perm le t).mem_iff.mp hy))

theorem isort_sorted {le : α → α → Bool}
    (htotal : ∀ a b, le a b = true ∨ le b a = true)
    (htrans : ∀ a b c, le a b = true → le b c = true → le a c = true)
    (l : List α) :
    (isort le l).Pairwise (fun a b => le a b = true) :=
  (isort_pairwise htotal htrans (S := fun _ _ => True)
    (List.pairwise_iff_forall_sublist.mpr fun _ => trivial)).imp And.left

theorem keyLe_total (a b : GKey) : keyLe a b = true ∨ keyLe b a = true := by
  simp only [keyLe, decide_eq_true_iff]
  exact le_total a b

theorem keyLe_trans (a b c : GKey) :
    keyLe a b = true → keyLe b c = true → keyLe a c = true := by
  simp only [keyLe, decide_eq_true_iff]
  exact le_trans

theorem sumLe_total (a b : SummaryRow) : sumLe a b = true ∨ sumLe b a = true := by
  simp only [sumLe, decide_eq_true_iff]
  exact Or.symm (le_total a.total_points b.total_points)

theorem sumLe_trans (a b c : SummaryRow) :
    sumLe a b = true → sumLe b c = true → sumLe a c = true := by
  simp only [sumLe, decide_eq_true_iff]
  exact fun h1 h2 => le_trans h2 h1

/-! ### The three views returned by `filter_data` -/

/-- The player subset returned by `filter_data`. -/
def subsetOf (slim : List SlimRow) (hist : List PHistRow)
    (teams : List String) (pos : String) (w : Nat) : List SlimRow :=
  (filter_data slim hist teams pos w).1

/-- The annotated history returned by `filter_data`. -/
def annOf (slim : List SlimRow) (hist : List PHistRow)
    (teams : List String) (pos : String) (w : Nat) : List AnnRow :=
  (filter_data slim hist teams pos w).2.1

/-- The summary table returned by `filter_data`. -/
def tblOf (slim : List SlimRow) (hist : List PHistRow)
    (teams : List String) (pos : String) (w : Nat) : List SummaryRow :=
  (filter_data slim hist teams pos w).2.2

/-- The restricted history of `filter_data`: rows of subset players with
round at least `min_week`. -/
def fhOf (slim : List SlimRow) (hist : List PHistRow)
    (teams : List String) (pos : String) (w : Nat) : List PHistRow :=
  hist.filter (fun r =>
    ((subsetOf slim hist teams pos w).map (fun x => x.id)).contains r.element
      && decide (w ≤ r.round))

theorem annOf_eq (slim : List SlimRow) (hist : List PHistRow)
    (teams : List String) (pos : String) (w : Nat) :
    annOf slim hist teams pos w
      = mergeMeta slim (addCumsum (fhOf slim hist teams pos w)) := rfl

theorem tblOf_eq (slim : List SlimRow) (hist : List PHistRow)
    (teams : List String) (pos : String) (w : Nat) :
    tblOf slim hist teams pos w
      = isort sumLe (groupAgg (annOf slim hist teams pos w)) := rfl

/-! ### The cumulative-points column -/

/-- Strict ascent of rounds along each player's rows: the order in which
the upstream API delivers a player's history and in which `load_history`
preserves it (rounds are unique per player and listed in ascending
order). -/
def RoundSorted (rows : List PHistRow) : Prop :=
  rows.Pairwise (fun a b => a.element = b.element → a.round < b.round)

instance (rows : List PHistRow) : Decidable (RoundSorted rows) := by
  unfold RoundSorted
  infer_instance

theorem length_addCumsum (rows : List PHistRow) :
    (addCumsum rows).length = rows.length := by
  simp [addCumsum]

theorem addCumsum_get (rows : List PHistRow) (i : Nat)
    (hi : i < (addCumsum rows).length) :
    (addCumsum rows).get ⟨i, hi⟩ =
      { element := (rows.get ⟨i, length_addCumsum rows ▸ hi⟩).element
        round := (rows.get ⟨i, length_addCumsum rows ▸ hi⟩).round
        total_points := (rows.get ⟨i, length_addCumsum rows ▸ hi⟩).total_points
        defensive_contribution :=
          (rows.get ⟨i, length_addCumsum rows ▸ hi⟩).defensive_contribution
        bonus := (rows.get ⟨i, length_addCumsum rows ▸ hi⟩).bonus
        player := (rows.get ⟨i, length_addCumsum rows ▸ hi⟩).player
        total_points_sum :=
          (((rows.take (i + 1)).filter
              (fun x => x.element == (rows.get ⟨i, length_addCumsum rows ▸ hi⟩).element)).map
            (fun x => x.total_points)).sum } := by
  simp [addCumsum, List.get_eq_getElem]

/-- Within a round-sorted history, the rows of a player up to position `i`
are exactly the rows of that player with round at most the round at `i`. -/
theorem take_filter_eq_round_filter (rows : List PHistRow)
    (hs : RoundSorted rows) (i : Nat) (hi : i < rows.length) (e R : Nat)
    (hE : (rows.get ⟨i, hi⟩).element = e) (hR : (rows.get ⟨i, hi⟩).round = R) :
    (rows.take (i + 1)).filter (fun x => x.element == e)
      = rows.filter (fun x => x.element == e && decide (x.round ≤ R)) := by
  rw [List.get_eq_getElem] at hE hR
  have hpw := (List.pairwise_iff_getElem).mp hs
  have hdrop : (rows.drop (i + 1)).filter (fun x =>
      x.element == e && decide (x.round ≤ R)) = [] := by
    rw [List.filter_eq_nil_iff]
    intro a ha
    obtain ⟨j, hj, rfl⟩ := List.mem_iff_getElem.mp ha
    have hjlen : i + 1 + j < rows.length := by
      have := hj
      simp only [List.length_drop] at this
      omega
    intro hcontra
    rw [List.getElem_drop, Bool.and_eq_true, beq_iff_eq, decide_eq_true_iff] at hcontra
    have hlt := hpw i (i + 1 + j) hi hjlen (by omega)
      (by rw [hE]; exact hcontra.1.symm)
    rw [hR] at hlt
    omega
  have hcongr : ∀ x ∈ rows.take (i + 1),
      (x.element == e)
        = (x.element == e && decide (x.round ≤ R)) := by
    intro x hx
    obtain ⟨j, hj, rfl⟩ := List.mem_iff_getElem.mp hx
    have hjle : j ≤ i := by
      have := hj
      simp only [List.length_take] at this
      omega
    rw [List.getElem_take]
    by_cases he : rows[j].element = e
    · have hround : rows[j].round ≤ R := by
        rcases Nat.lt_or_ge j i with hji | hji
        · have hlt := hpw j i (by omega) hi hji (by rw [he, ← hE])
          rw [hR] at hlt
          omega
        · have hij : j = i := by omega
          subst hij
          rw [← hR]
      simp [he, hround]
    · simp [he]
  conv_rhs => rw [← List.take_append_drop (i + 1) rows, List.filter_append, hdrop,
    List.append_nil]
  exact List.filter_congr hcongr

/-- The cumulative column only grows along a player's rows when the
per-round points are non-negative. -/
theorem take_filter_sum_mono (rows : List PHistRow)
    (hpos : ∀ r ∈ rows, 0 ≤ r.total_points) (e : Nat) (i j : Nat) (hij : i ≤ j) :
    (((rows.take (i + 1)).filter (fun x => x.element == e)).map
        (fun x => x.total_points)).sum
      ≤ (((rows.take (j + 1)).filter (fun x => x.element == e)).map
        (fun x => x.total_points)).sum := by
  have hdecomp : rows.take (j + 1)
      = rows.take (i + 1) ++ (rows.take (j + 1)).drop (i + 1) := by
    conv_lhs => rw [← List.take_append_drop (i + 1) (rows.take (j + 1))]
    rw [List.take_take, Nat.min_eq_left (by omega)]
  rw [hdecomp, List.filter_append, List.map_append, List.sum_append]
  have hnn : 0 ≤ ((((rows.take (j + 1)).drop (i + 1)).filter
      (fun x => x.element == e)).map (fun x => x.total_points)).sum := by
    apply List.sum_nonneg
    intro x hx
    simp only [List.mem_map, List.mem_filter] at hx
    obtain ⟨y, ⟨hy, _⟩, rfl⟩ := hx
    exact hpos y (List.mem_of_mem_take (List.mem_of_mem_drop hy))
  omega

/-! ### The metadata merge -/

/-- With unique slim ids, the rows matching an id are the `find?` hit. -/
theorem filter_id_eq_find (slim : List SlimRow) (e : Nat)
    (h : (slim.map (fun r => r.id)).Nodup) :
    slim.filter (fun m => m.id == e) = (slim.find? (fun m => m.id == e)).toList := by
  induction slim with
  | nil => rfl
  | cons m t ih =>
    rw [List.map_cons, List.nodup_cons] at h
    by_cases hm : (m.id == e) = true
    · have hnil : t.filter (fun x => x.id == e) = [] := by
        rw [List.filter_eq_nil_iff]
        intro a ha hae
        rw [beq_iff_eq] at hm hae
        exact h.1 (List.mem_map.mpr ⟨a, ha, by rw [hae, hm]⟩)
      simp [List.filter_cons, hm, hnil, Option.toList]
    · rw [Bool.not_eq_true] at hm
      simp [List.filter_cons, hm, ih h.2]

/-- With unique slim ids the left merge is one output row per input row,
carrying the unique metadata match. -/
theorem mergeMeta_eq_map (slim : List SlimRow)
    (hnd : (slim.map (fun r => r.id)).Nodup) (rows : List CumRow) :
    mergeMeta slim rows
      = rows.map (fun r => mkAnn r (slim.find? (fun m => m.id == r.element))) := by
  induction rows with
  | nil => rfl
  | cons r t ih =>
    simp only [mergeMeta, List.flatMap_cons] at *
    rw [ih, filter_id_eq_find slim r.element hnd]
    cases hf : slim.find? (fun m => m.id == r.element) <;>
      simp [hf, Option.toList]

/-- Filtering and projecting a positionally transformed list, when both
the filter and the projection only read preserved fields. -/
theorem filter_map_mapIdx_proj {A B C : Type _} (l : List A) (g : Nat → A → B)
    (q : B → Bool) (p : A → Bool) (f : B → C) (f0 : A → C)
    (hq : ∀ i a, q (g i a) = p a) (hf : ∀ i a, f (g i a) = f0 a) :
    ((l.mapIdx g).filter q).map f = (l.filter p).map f0 := by
  induction l generalizing g with
  | nil => rfl
  | cons a t ih =>
    rw [List.mapIdx_cons, List.filter_cons, List.filter_cons, hq 0 a]
    by_cases hp : p a = true
    · rw [hp]
      simp only [if_pos]
      rw [List.map_cons, List.map_cons, hf 0 a,
        ih (fun i => g (i + 1)) (fun i a => hq (i + 1) a) (fun i a => hf (i + 1) a)]
    · rw [Bool.not_eq_true] at hp
      rw [hp]
      simp only [Bool.false_eq_true, if_neg, not_false_iff]
      exact ih (fun i => g (i + 1)) (fun i a => hq (i + 1) a) (fun i a => hf (i + 1) a)

/-! ### Claim C1: the cumulative points column -/

/-- Claim C1 (amended): in `filter_data`, each annotated row's
`total_points_sum` equals the sum of that player's `total_points` over the
annotated rows with round up to the current round, assuming unique slim
ids and per-player round-ascending input history; and the column is
non-decreasing along a player's rows provided every per-round
`total_points` is non-negative (the unconditional monotonicity of the
original claim fails for negative rounds, see the counterexample). -/
theorem C1_cumulative_points (slim : List SlimRow) (hist : List PHistRow)
    (teams : List String) (pos : String) (w : Nat)
    (hnd : (slim.map (fun r => r.id)).Nodup)
    (hs : RoundSorted hist)
    (i : Nat) (hi : i < (annOf slim hist teams pos w).length) :
    ((annOf slim hist teams pos w).get ⟨i, hi⟩).total_points_sum
      = (((annOf slim hist teams pos w).filter (fun x =>
            x.element == ((annOf slim hist teams pos w).get ⟨i, hi⟩).element
              && decide (x.round ≤ ((annOf slim hist teams pos w).get ⟨i, hi⟩).round))).map
          (fun x => x.total_points)).sum
    ∧ ((∀ r ∈ hist, 0 ≤ r.total_points) →
        ∀ j (hj : j < (annOf slim hist teams pos w).length), j ≤ i →
          ((annOf slim hist teams pos w).get ⟨j, hj⟩).element
            = ((annOf slim hist teams pos w).get ⟨i, hi⟩).element →
          ((annOf slim hist teams pos w).get ⟨j, hj⟩).total_points_sum
            ≤ ((annOf slim hist teams pos w).get ⟨i, hi⟩).total_points_sum) := by
  have hann : annOf slim hist teams pos w
      = (addCumsum (fhOf slim hist teams pos w)).map
          (fun r => mkAnn r (slim.find? (fun m => m.id == r.element))) := by
    rw [annOf_eq, mergeMeta_eq_map slim hnd]
  have hsfh : RoundSorted (fhOf slim hist teams pos w) :=
    List.Pairwise.sublist (List.filter_sublist _) hs
  have hlen : (annOf slim hist teams pos w).length
      = (fhOf slim hist teams pos w).length := by
    rw [hann, List.length_map, length_addCumsum]
  have hif : i < (fhOf slim hist teams pos w).length := hlen ▸ hi
  have hget : ∀ k (hk : k < (annOf slim hist teams pos w).length)
      (hkf : k < (fhOf slim hist teams pos w).length),
      ((annOf slim hist teams pos w).get ⟨k, hk⟩).element
          = ((fhOf slim hist teams pos w).get ⟨k, hkf⟩).element
      ∧ ((annOf slim hist teams pos w).get ⟨k, hk⟩).round
          = ((fhOf slim hist teams pos w).get ⟨k, hkf⟩).round
      ∧ ((annOf slim hist teams pos w).get ⟨k, hk⟩).total_points_sum
          = ((((fhOf slim hist teams pos w).take (k + 1)).filter (fun x =>
                x.element == ((fhOf slim hist teams pos w).get ⟨k, hkf⟩).element)).map
              (fun x => x.total_points)).sum := by
    intro k hk hkf
    simp only [hann, List.get_eq_getElem, List.getElem_map, addCumsum,
      List.getElem_mapIdx, mkAnn]
    exact ⟨trivial, trivial, trivial⟩
  obtain ⟨hE, hR, hS⟩ := hget i hi hif
  constructor
  · rw [hS, hE, hR]
    have hconv : ((annOf slim hist teams pos w).filter (fun x =>
          x.element == ((fhOf slim hist teams pos w).get ⟨i, hif⟩).element
            && decide (x.round ≤ ((fhOf slim hist teams pos w).get ⟨i, hif⟩).round))).map
          (fun x => x.total_points)
        = (((fhOf slim hist teams pos w).filter (fun x =>
            x.element == ((fhOf slim hist teams pos w).get ⟨i, hif⟩).element
              && decide (x.round ≤ ((fhOf slim hist teams pos w).get ⟨i, hif⟩).round))).map
          (fun x => x.total_points)) := by
      rw [hann, List.filter_map, List.map_map]
      exact filter_map_mapIdx_proj (fhOf slim hist teams pos w) _ _ _ _ _
        (fun _ _ => rfl) (fun _ _ => rfl)
    rw [hconv,
      take_filter_eq_round_filter (fhOf slim hist teams pos w) hsfh i hif _ _ rfl rfl]
  · intro hpos j hj hjle helem
    have hjf : j < (fhOf slim hist teams pos w).length := hlen ▸ hj
    obtain ⟨hEj, _, hSj⟩ := hget j hj hjf
    rw [hS, hSj]
    have helemf : ((fhOf slim hist teams pos w).get ⟨j, hjf⟩).element
        = ((fhOf slim hist teams pos w).get ⟨i, hif⟩).element := by
      rw [← hEj, ← hE]
      exact helem
    rw [helemf]
    exact take_filter_sum_mono (fhOf slim hist teams pos w)
      (fun r hr => hpos r (List.mem_of_mem_filter hr)) _ j i hjle

/-- A one-player roster for the C1 counterexample and witness. -/
def slimC1 : List SlimRow :=
  [{ id := 1, minutes := 90, transfers_in := 0, total_points := 2,
     position := some ("Midfielder"), team_name := some ("Arsenal"),
     price := 5, player := "A B" }]

/-- A history with a negative round score in round 2. -/
def histC1 : List PHistRow :=
  [{ element := 1, round := 1, total_points := 5, defensive_contribution := 0,
     bonus := 0, player := some ("A B") },
   { element := 1, round := 2, total_points := -3, defensive_contribution := 0,
     bonus := 0, player := some ("A B") }]

/-- Claim C1 as stated is false: with a round-sorted single-player history
scoring 5 then -3, the cumulative column of the annotated history is
[5, 2], which strictly decreases along that player's round-ascending
rows. -/
theorem C1_counterexample :
    RoundSorted histC1
    ∧ (annOf slimC1 histC1 [] "All" 0).map (fun r => r.element) = [1, 1]
    ∧ (annOf slimC1 histC1 [] "All" 0).map (fun r => r.round) = [1, 2]
    ∧ (annOf slimC1 histC1 [] "All" 0).map (fun r => r.total_points_sum) = [5, 2]
    ∧ ¬ ((5 : Int) ≤ 2) := by
  refine ⟨by decide, by decide, by decide, by decide, by decide⟩

theorem C1w_len : 0 < (annOf slimC1 histC1 [] "All" 0).length := by decide

/-- Witness for C1 at a concrete input. -/
theorem C1_witness :
    ((slimC1.map (fun r => r.id)).Nodup ∧ RoundSorted histC1)
    ∧ ((annOf slimC1 histC1 [] "All" 0).get ⟨0, C1w_len⟩).total_points_sum
      = (((annOf slimC1 histC1 [] "All" 0).filter (fun x =>
            x.element == ((annOf slimC1 histC1 [] "All" 0).get ⟨0, C1w_len⟩).element
              && decide (x.round
                  ≤ ((annOf slimC1 histC1 [] "All" 0).get ⟨0, C1w_len⟩).round))).map
          (fun x => x.total_points)).sum :=
  ⟨⟨by decide, by decide⟩,
    (C1_cumulative_points slimC1 histC1 [] "All" 0 (by decide) (by decide) 0 C1w_len).1⟩

/-! ### Claim C2: zero or negative prices -/

/-- Every annotated row is a merge of a cumulated row with an optional
metadata match. -/
theorem mem_mergeMeta (slim : List SlimRow) (rows : List CumRow) (r : AnnRow)
    (h : r ∈ mergeMeta slim rows) : ∃ c m, r = mkAnn c m := by
  unfold mergeMeta at h
  rw [List.mem_flatMap] at h
  obtain ⟨c, _, hr⟩ := h
  cases hfil : slim.filter (fun m => m.id == c.element) with
  | nil =>
    rw [hfil] at hr
    rw [List.mem_singleton] at hr
    exact ⟨c, none, hr⟩
  | cons m ms =>
    rw [hfil, List.mem_map] at hr
    obtain ⟨x, _, hx⟩ := hr
    exact ⟨c, some x, hx.symm⟩

/-- Claim C2 (amended): `filter_data` performs no price validation and
never fails; `total_value` is the unguarded float division, so a zero
price silently yields infinity (NaN when the cumulative sum is also 0,
negative infinity when it is negative), a missing price yields NaN, and
any non-zero price (negative included) yields the finite quotient. -/
theorem C2_price_division (slim : List SlimRow) (hist : List PHistRow)
    (teams : List String) (pos : String) (w : Nat) :
    ∀ r ∈ annOf slim hist teams pos w,
      (∀ p, r.price = some p → p ≠ 0 →
          r.total_value = PFloat.finite ((r.total_points_sum : ℚ) / p))
      ∧ (r.price = some 0 →
          (0 < r.total_points_sum → r.total_value = PFloat.inf)
          ∧ (r.total_points_sum = 0 → r.total_value = PFloat.nan)
          ∧ (r.total_points_sum < 0 → r.total_value = PFloat.ninf))
      ∧ (r.price = none → r.total_value = PFloat.nan) := by
  intro r hr
  rw [annOf_eq] at hr
  obtain ⟨c, m, rfl⟩ := mem_mergeMeta _ _ r hr
  have hval : (mkAnn c m).total_value
      = pdiv (mkAnn c m).total_points_sum (mkAnn c m).price := rfl
  refine ⟨?_, ?_, ?_⟩
  · intro p hp hpne
    rw [hval, hp, pdiv, if_neg hpne]
  · intro hp
    rw [hval, hp]
    refine ⟨?_, ?_, ?_⟩ <;> intro hn
    · have h1 : ¬ ((mkAnn c m).total_points_sum = 0) := by omega
      simp [pdiv, hn, h1]
    · simp [pdiv, hn]
    · have h1 : ¬ ((mkAnn c m).total_points_sum = 0) := by omega
      have h2 : ¬ (0 < (mkAnn c m).total_points_sum) := by omega
      simp [pdiv, h1, h2]
  · intro hp
    rw [hval, hp]
    rfl

/-- A roster whose only player has price 0 (the C2 counterexample). -/
def slimC2 : List SlimRow :=
  [{ id := 1, minutes := 90, transfers_in := 0, total_points := 4,
     position := some ("Midfielder"), team_name := some ("Arsenal"),
     price := 0, player := "A B" }]

/-- A single history row for the price-0 player. -/
def histC2 : List PHistRow :=
  [{ element := 1, round := 1, total_points := 4, defensive_contribution := 0,
     bonus := 0, player := some ("A B") }]

/-- Claim C2 as stated is false: with a zero price, `filter_data` returns
normally (it has no failure path at all) and the `total_value` columns of
both the annotated history and the summary table silently hold infinity
instead of the call failing fast. -/
theorem C2_counterexample :
    (annOf slimC2 histC2 [] "All" 0).map (fun r => (r.price, r.total_value))
        = [(some 0, PFloat.inf)]
    ∧ (tblOf slimC2 histC2 [] "All" 0).map (fun s => (s.price, s.total_value))
        = [(0, PFloat.inf)] := by
  refine ⟨by decide, by decide⟩

/-- The annotated row produced for the price-0 player. -/
def annRowC2 : AnnRow :=
  { element := 1, round := 1, total_points := 4, defensive_contribution := 0,
    bonus := 0, player := some ("A B"), total_points_sum := 4, price := some 0,
    team_name := some ("Arsenal"), position := some ("Midfielder"),
    total_value := PFloat.inf }

/-- Witness for C2 at a concrete input. -/
theorem C2_witness :
    (annRowC2 ∈ annOf slimC2 histC2 [] "All" 0 ∧ annRowC2.price = some 0
      ∧ 0 < annRowC2.total_points_sum)
    ∧ annRowC2.total_value = PFloat.inf :=
  ⟨⟨by decide, by decide, by decide⟩,
    ((C2_price_division slimC2 histC2 [] "All" 0 annRowC2 (by decide)).2.1
      (by decide)).1 (by decide)⟩

/-! ### Claims C9 and C10: empty selections, subset independence -/

/-- An empty restricted history gives empty annotated and summary
tables. -/
theorem fh_empty_views (slim : List SlimRow) (hist : List PHistRow)
    (teams : List String) (pos : String) (w : Nat)
    (h : fhOf slim hist teams pos w = []) :
    annOf slim hist teams pos w = [] ∧ tblOf slim hist teams pos w = [] := by
  have hann : annOf slim hist teams pos w = [] := by
    rw [annOf_eq, h]
    rfl
  refine ⟨hann, ?_⟩
  rw [tblOf_eq, hann]
  rfl

/-- Claim C9: an impossible position filter yields entirely empty views
(no error), and a `min_week` beyond the last round yields an empty
annotated history and an empty summary table. -/
theorem C9_empty_selections (slim : List SlimRow) (hist : List PHistRow)
    (teams : List String) (pos : String) (w m : Nat) :
    ((∀ r ∈ slim, ¬ r.position = some ("Goalkeeper")) →
      filter_data slim hist teams "Goalkeeper" w = ([], [], []))
    ∧ ((∀ r ∈ hist, r.round ≤ m) → m < w →
        annOf slim hist teams pos w = [] ∧ tblOf slim hist teams pos w = []) := by
  constructor
  · intro hGK
    have h0 : slim.filter (fun r => r.position == some ("Goalkeeper")) = [] := by
      rw [List.filter_eq_nil_iff]
      intro a ha
      simp only [beq_iff_eq]
      exact hGK a ha
    have hsub : subsetOf slim hist teams "Goalkeeper" w = [] := by
      show (filter_data slim hist teams "Goalkeeper" w).1 = []
      simp only [filter_data]
      rw [if_pos (by decide : (("Goalkeeper" : String) != "All") = true), h0]
      cases hT : (teams != []) <;> simp
    have hfh : fhOf slim hist teams "Goalkeeper" w = [] := by
      rw [fhOf, List.filter_eq_nil_iff]
      intro a ha
      rw [hsub]
      simp
    obtain ⟨hann, htbl⟩ := fh_empty_views slim hist teams "Goalkeeper" w hfh
    have hsplit : filter_data slim hist teams "Goalkeeper" w
        = (subsetOf slim hist teams "Goalkeeper" w,
            annOf slim hist teams "Goalkeeper" w,
            tblOf slim hist teams "Goalkeeper" w) := rfl
    rw [hsplit, hsub, hann, htbl]
  · intro hro hmw
    apply fh_empty_views
    rw [fhOf, List.filter_eq_nil_iff]
    intro a ha
    have hle := hro a ha
    simp only [Bool.and_eq_true, decide_eq_true_iff, not_and]
    intro _
    omega

/-- Witness for C9 at concrete inputs. -/
theorem C9_witness :
    ((∀ r ∈ slimC1, ¬ r.position = some ("Goalkeeper"))
      ∧ (∀ r ∈ histC1, r.round ≤ 2) ∧ 2 < 5)
    ∧ filter_data slimC1 histC1 [] "Goalkeeper" 0 = ([], [], [])
    ∧ annOf slimC1 histC1 [] "All" 5 = []
    ∧ tblOf slimC1 histC1 [] "All" 5 = [] :=
  ⟨⟨by decide, by decide, by decide⟩,
    (C9_empty_selections slimC1 histC1 [] "All" 0 2).1 (by decide),
    ((C9_empty_selections slimC1 histC1 [] "All" 5 2).2 (by decide) (by decide)).1,
    ((C9_empty_selections slimC1 histC1 [] "All" 5 2).2 (by decide) (by decide)).2⟩

/-- Claim C10: the subset returned by `filter_data` does not depend on
`min_week`; it is computed from the position and team filters alone. -/
theorem C10_subset_independent (slim : List SlimRow) (hist : List PHistRow)
    (teams : List String) (pos : String) (w1 w2 : Nat) :
    (filter_data slim hist teams pos w1).1 = (filter_data slim hist teams pos w2).1 := rfl

/-! ### Claim C6: all-or-nothing history aggregation -/

/-- A single failing fetch fails the whole aggregate load. -/
theorem load_history_error (fetch : Nat → Except ε (List HistRow)) (ids : List Nat)
    (h : ∃ id ∈ ids, ∃ e, fetch id = Except.error e) :
    ∃ e, load_history fetch ids = Except.error e := by
  induction ids with
  | nil =>
    obtain ⟨id, hid, _⟩ := h
    exact absurd hid (List.not_mem_nil id)
  | cons a t ih =>
    obtain ⟨id, hid, e, he⟩ := h
    rcases List.mem_cons.mp hid with rfl | hmem
    · exact ⟨e, by simp [load_history, he]⟩
    · cases ha : fetch a with
      | error e2 => exact ⟨e2, by simp [load_history, ha]⟩
      | ok ha2 =>
        obtain ⟨e3, he3⟩ := ih ⟨id, hmem, e, he⟩
        exact ⟨e3, by simp [load_history, ha, he3]⟩

/-- When every fetch succeeds the aggregate load succeeds, and its rows
are exactly the rows of the individual results. -/
theorem load_history_ok (fetch : Nat → Except ε (List HistRow)) (ids : List Nat)
    (h : ∀ id ∈ ids, ∃ hh, fetch id = Except.ok hh) :
    ∃ H, load_history fetch ids = Except.ok H
      ∧ ∀ r, r ∈ H ↔ ∃ id ∈ ids, ∃ hh, fetch id = Except.ok hh ∧ r ∈ hh := by
  induction ids with
  | nil =>
    refine ⟨[], rfl, ?_⟩
    simp
  | cons a t ih =>
    obtain ⟨ha, hha⟩ := h a (List.mem_cons_self a t)
    obtain ⟨H, hH, hmemH⟩ := ih (fun id hid => h id (List.mem_cons_of_mem a hid))
    refine ⟨ha ++ H, by simp [load_history, hha, hH], ?_⟩
    intro r
    rw [List.mem_append]
    constructor
    · rintro (hr | hr)
      · exact ⟨a, List.mem_cons_self a t, ha, hha, hr⟩
      · obtain ⟨id, hid, hh, hh2, hr2⟩ := (hmemH r).mp hr
        exact ⟨id, List.mem_cons_of_mem a hid, hh, hh2, hr2⟩
    · rintro ⟨id, hid, hh, hfid, hr⟩
      rcases List.mem_cons.mp hid with rfl | hid2
      · left
        rw [hha] at hfid
        cases hfid
        exact hr
      · right
        exact (hmemH r).mpr ⟨id, hid2, hh, hfid, hr⟩

/-- Claim C6: if any requested player's fetch fails, `load_history` fails
as a whole and returns no partial table; when every fetch succeeds it
returns a table whose rows' `element` values cover exactly the requested
ids (given each per-player result is non-empty and tagged with its own
id). -/
theorem C6_aggregate_failure (fetch : Nat → Except ε (List HistRow)) (ids : List Nat) :
    ((∃ id ∈ ids, ∃ e, fetch id = Except.error e) →
      ∃ e, load_history fetch ids = Except.error e)
    ∧ ((∀ id ∈ ids, ∃ hh, fetch id = Except.ok hh) →
      ∃ H, load_history fetch ids = Except.ok H
        ∧ ((∀ id ∈ ids, ∀ hh, fetch id = Except.ok hh →
              hh ≠ [] ∧ ∀ r ∈ hh, r.element = id) →
            ∀ x, (∃ r ∈ H, r.element = x) ↔ x ∈ ids)) := by
  constructor
  · exact load_history_error fetch ids
  · intro hok
    obtain ⟨H, hH, hmem⟩ := load_history_ok fetch ids hok
    refine ⟨H, hH, ?_⟩
    intro hrows x
    constructor
    · rintro ⟨r, hr, rfl⟩
      obtain ⟨id, hid, hh, hfid, hrh⟩ := (hmem r).mp hr
      rw [(hrows id hid hh hfid).2 r hrh]
      exact hid
    · intro hx
      obtain ⟨hh, hfh⟩ := hok x hx
      obtain ⟨hne, hel⟩ := hrows x hx hh hfh
      cases hh with
      | nil => exact absurd rfl hne
      | cons r0 t0 =>
        exact ⟨r0, (hmem r0).mpr ⟨x, hx, r0 :: t0, hfh, List.mem_cons_self r0 t0⟩,
          hel r0 (List.mem_cons_self r0 t0)⟩

/-- A fetch that fails for player 2 and succeeds for everyone else. -/
def fetchC6 (id : Nat) : Except Unit (List HistRow) :=
  if id = 2 then Except.error ()
  else Except.ok [{ element := id, round := 1, total_points := 0,
                    defensive_contribution := 0, bonus := 0 }]

/-- Witness for C6 at a concrete input: with player 2's fetch failing the
aggregate call over [1, 2] fails. -/
theorem C6_witness :
    (fetchC6 2 = Except.error () ∧ (2 : Nat) ∈ [1, 2])
    ∧ (∃ e, load_history fetchC6 [1, 2] = Except.error e) :=
  ⟨⟨rfl, by decide⟩,
    (C6_aggregate_failure fetchC6 [1, 2]).1 ⟨2, by decide, (), rfl⟩⟩

/-! ### Claim C3: unresolved lookups -/

/-- The bootstrap for the C3 counterexample: its only player has
`element_type` 99 and `team` 7, neither of which resolves. -/
def bootC3 : Bootstrap :=
  { elements := [{ id := 1, first_name := "A", second_name := "B", team := 7,
                   element_type := 99, now_cost := 50, minutes := 3,
                   transfers_in := 0, total_points := 1 }]
    element_types := [{ id := 1, singular_name := "Goalkeeper" }]
    teams := [] }

/-- A fetch that returns an empty history for every player. -/
def fetchC3 : Nat → Except Unit (List HistRow) := fun _ => Except.ok []

/-- The aggregate load only consults the fetch on the given ids. -/
theorem load_history_congr (f g : Nat → Except ε (List HistRow)) (ids : List Nat)
    (h : ∀ id ∈ ids, f id = g id) :
    load_history f ids = load_history g ids := by
  induction ids with
  | nil => rfl
  | cons a t ih =>
    simp only [load_history, h a (List.mem_cons_self a t),
      ih (fun id hid => h id (List.mem_cons_of_mem a hid))]

/-- Claim C7: every slim-table row has positive minutes, and
`prepare_data` issues history fetches only for the retained (positive
minutes) players: its result is unchanged by any fetch function that
agrees on the retained ids. -/
theorem C7_minutes_filter (boot : Bootstrap) (fetch g : Nat → Except ε (List HistRow))
    (res : List SlimRow × List PHistRow × List ElementRec)
    (h : prepare_data boot fetch = Except.ok res) :
    (∀ r ∈ res.1, 0 < r.minutes)
    ∧ ((∀ id ∈ (boot.elements.filter (fun e => decide (0 < e.minutes))).map
          (fun e => e.id), fetch id = g id) →
        prepare_data boot g = prepare_data boot fetch) := by
  constructor
  · intro r hr
    simp only [prepare_data] at h
    cases hl : load_history fetch
        ((boot.elements.filter (fun e => decide (0 < e.minutes))).map (fun e => e.id)) with
    | error e =>
      rw [hl] at h
      exact absurd h (by simp)
    | ok H =>
      rw [hl] at h
      cases h
      rw [List.mem_map] at hr
      obtain ⟨e, he, rfl⟩ := hr
      rw [List.mem_filter] at he
      have := he.2
      rw [decide_eq_true_iff] at this
      exact this
  · intro hagree
    simp only [prepare_data]
    rw [load_history_congr g fetch _ (fun id hid => (hagree id hid).symm)]

/-- Witness for C7 at a concrete input. -/
theorem C7_witness :
    prepare_data bootC3 fetchC3 = Except.ok
        ((bootC3.elements.filter (fun e => decide (0 < e.minutes))).map
          (slimOfElement bootC3.element_types bootC3.teams),
         [],
         bootC3.elements.filter (fun e => decide (0 < e.minutes)))
    ∧ (∀ r ∈ ((bootC3.elements.filter (fun e => decide (0 < e.minutes))).map
          (slimOfElement bootC3.element_types bootC3.teams)), 0 < r.minutes) :=
  ⟨rfl,
    (C7_minutes_filter bootC3 fetchC3 fetchC3 _ rfl).1⟩

/-! ### Claim C8: display names -/

/-- With unique ids, `find?` on an id locates the member itself. -/
theorem find_id_unique (l : List ElementRec) (e : ElementRec)
    (hnd : (l.map (fun x => x.id)).Nodup) (he : e ∈ l) :
    l.find? (fun x => x.id == e.id) = some e := by
  induction l with
  | nil => cases he
  | cons a t ih =>
    rw [List.map_cons, List.nodup_cons] at hnd
    rcases List.mem_cons.mp he with rfl | het
    · rw [List.find?_cons_of_pos _ (by simp)]
    · by_cases hae : (a.id == e.id) = true
      · exfalso
        rw [beq_iff_eq] at hae
        exact hnd.1 (List.mem_map.mpr ⟨e, het, hae.symm⟩)
      · rw [Bool.not_eq_true] at hae
        simp only [List.find?_cons, hae]
        exact ih hnd.2 het

/-- Claim C8: each slim row's `player` is literally
`first_name ++ " " ++ second_name` of its bootstrap record, and each
history row's `player` is the same concatenation for the matching
retained record (unique retained ids assumed for the lookup). -/
theorem C8_display_names (boot : Bootstrap) (fetch : Nat → Except ε (List HistRow))
    (res : List SlimRow × List PHistRow × List ElementRec)
    (h : prepare_data boot fetch = Except.ok res) :
    (∀ r ∈ res.1, ∃ e ∈ boot.elements, 0 < e.minutes ∧ r.id = e.id
        ∧ r.player = e.first_name ++ " " ++ e.second_name)
    ∧ (((boot.elements.filter (fun x => decide (0 < x.minutes))).map
          (fun x => x.id)).Nodup →
        ∀ r ∈ res.2.1, ∀ e ∈ boot.elements.filter (fun x => decide (0 < x.minutes)),
          r.element = e.id →
          r.player = some (e.first_name ++ " " ++ e.second_name)) := by
  simp only [prepare_data] at h
  cases hl : load_history fetch
      ((boot.elements.filter (fun e => decide (0 < e.minutes))).map (fun e => e.id)) with
  | error er =>
    rw [hl] at h
    exact absurd h (by simp)
  | ok H =>
    rw [hl] at h
    cases h
    constructor
    · intro r hr
      rw [List.mem_map] at hr
      obtain ⟨e, he, rfl⟩ := hr
      rw [List.mem_filter] at he
      refine ⟨e, he.1, ?_, rfl, rfl⟩
      have := he.2
      rw [decide_eq_true_iff] at this
      exact this
    · intro hnd r hr e he hre
      rw [List.mem_map] at hr
      obtain ⟨r0, _, rfl⟩ := hr
      show ((boot.elements.filter (fun x => decide (0 < x.minutes))).find?
          (fun x => x.id == r0.element)).map
            (fun x => x.first_name ++ " " ++ x.second_name) = _
      have hre0 : r0.element = e.id := hre
      rw [hre0, find_id_unique _ e hnd he]
      rfl

/-- Bootstrap for the C8 witness: one retained player with a resolved
team and position, one zero-minute player to exercise the filter. -/
def bootC8 : Bootstrap :=
  { elements := [{ id := 1, first_name := "Bukayo", second_name := "Saka", team := 1,
                   element_type := 3, now_cost := 100, minutes := 90,
                   transfers_in := 5, total_points := 12 },
                 { id := 2, first_name := "Zero", second_name := "Min", team := 1,
                   element_type := 3, now_cost := 40, minutes := 0,
                   transfers_in := 0, total_points := 0 }]
    element_types := [{ id := 3, singular_name := "Midfielder" }]
    teams := [{ id := 1, name := "Arsenal" }] }

/-- A fetch returning one history row per requested player. -/
def fetchC8 : Nat → Except Unit (List HistRow) := fun id =>
  Except.ok [{ element := id, round := 1, total_points := 7,
               defensive_contribution := 2, bonus := 1 }]

theorem C8w_ok : prepare_data bootC8 fetchC8 = Except.ok
    ((bootC8.elements.filter (fun e => decide (0 < e.minutes))).map
        (slimOfElement bootC8.element_types bootC8.teams),
      [{ element := 1, round := 1, total_points := 7, defensive_contribution := 2,
         bonus := 1 }].map
        (addPlayerName (bootC8.elements.filter (fun e => decide (0 < e.minutes)))),
      bootC8.elements.filter (fun e => decide (0 < e.minutes))) := rfl

/-- The retained bootstrap record of player 1. -/
def elemSaka : ElementRec :=
  { id := 1, first_name := "Bukayo", second_name := "Saka", team := 1,
    element_type := 3, now_cost := 100, minutes := 90, transfers_in := 5,
    total_points := 12 }

/-- The history row of player 1 as returned by `prepare_data`. -/
def rowC8 : PHistRow :=
  { element := 1, round := 1, total_points := 7, defensive_contribution := 2,
    bonus := 1, player := some ("Bukayo Saka") }

/-- Witness for C8 at a concrete input: the fetched row of player 1 gets
the display name "Bukayo Saka". -/
theorem C8_witness :
    (((bootC8.elements.filter (fun x => decide (0 < x.minutes))).map
        (fun x => x.id)).Nodup
      ∧ elemSaka ∈ bootC8.elements.filter (fun x => decide (0 < x.minutes))
      ∧ rowC8.element = elemSaka.id)
    ∧ rowC8.player = some (elemSaka.first_name ++ " " ++ elemSaka.second_name) :=
  ⟨⟨by decide, by decide, rfl⟩,
    (C8_display_names bootC8 fetchC8 _ C8w_ok).2 (by decide) rowC8 (by decide)
      elemSaka (by decide) rfl⟩

/-! ### Claims C4 and C5: the summary table -/

/-- The aggregated row of a group carries its group key. -/
theorem sumKey_aggRow (rows : List AnnRow) (k : GKey) :
    sumKey (aggRow rows k) = k := rfl

/-- Membership in the summary table before the final sort. -/
theorem mem_groupAgg {rows : List AnnRow} {s : SummaryRow} :
    s ∈ groupAgg rows ↔ ∃ k, k ∈ rows.filterMap gkey ∧ s = aggRow rows k := by
  unfold groupAgg
  rw [List.mem_map]
  constructor
  · rintro ⟨k, hk, rfl⟩
    exact ⟨k, List.mem_dedup.mp (mem_isort.mp hk), rfl⟩
  · rintro ⟨k, hk, rfl⟩
    exact ⟨k, mem_isort.mpr (List.mem_dedup.mpr hk), rfl⟩

/-- Claim C4 (amended): the summary table is sorted descending by
`total_points` and is a permutation of the grouped table; the grouping
step orders the groups in ascending lexicographic group-key order
(player name, team, position, price) — not original player-id order.
The code guarantees no particular tie-break among equal-points rows,
since `sort_values`' default quicksort is not stable. -/
theorem C4_summary_sorted (slim : List SlimRow) (hist : List PHistRow)
    (teams : List String) (pos : String) (w : Nat) :
    (tblOf slim hist teams pos w).Pairwise (fun a b =>
      b.total_points ≤ a.total_points)
    ∧ List.Perm (tblOf slim hist teams pos w)
        (groupAgg (annOf slim hist teams pos w))
    ∧ (groupAgg (annOf slim hist teams pos w)).Pairwise
        (fun a b => keyLe (sumKey a) (sumKey b) = true) := by
  have hgrouped : (groupAgg (annOf slim hist teams pos w)).Pairwise
      (fun a b => keyLe (sumKey a) (sumKey b) = true) := by
    unfold groupAgg
    rw [List.pairwise_map]
    apply (isort_sorted keyLe_total keyLe_trans _).imp
    intro k1 k2 h
    rw [sumKey_aggRow, sumKey_aggRow]
    exact h
  refine ⟨?_, ?_, hgrouped⟩
  · rw [tblOf_eq]
    apply (isort_sorted sumLe_total sumLe_trans _).imp
    intro a b h
    rw [sumLe, decide_eq_true_iff] at h
    exact h
  · rw [tblOf_eq]
    exact isort_perm sumLe _

/-- Roster for the C4 counterexample: player id 1 is named "B B", player
id 2 is named "A A"; both score identically. -/
def slimC4 : List SlimRow :=
  [{ id := 1, minutes := 90, transfers_in := 0, total_points := 4,
     position := some ("Midfielder"), team_name := some ("Arsenal"),
     price := 5, player := "B B" },
   { id := 2, minutes := 80, transfers_in := 0, total_points := 4,
     position := some ("Midfielder"), team_name := some ("Arsenal"),
     price := 5, player := "A A" }]

/-- One equal-scoring round for each of the two players. -/
def histC4 : List PHistRow :=
  [{ element := 1, round := 1, total_points := 4, defensive_contribution := 0,
     bonus := 0, player := some ("B B") },
   { element := 2, round := 1, total_points := 4, defensive_contribution := 0,
     bonus := 0, player := some ("A A") }]

/-- Claim C4 as stated is false: with equal total points the summary rows
come out in ascending player-name order ("A A" before "B B"), while
original player-id order (1 before 2) would put "B B" first. -/
theorem C4_counterexample :
    slimC4.map (fun r => (r.id, r.player)) = [(1, "B B"), (2, "A A")]
    ∧ (tblOf slimC4 histC4 [] "All" 0).map (fun s => (s.player, s.total_points))
        = [("A A", 4), ("B B", 4)] := by
  refine ⟨by decide, by decide⟩

/-- Claim C5 (amended): provided every annotated row's group key
resolves and the key (player, team, position, price) identifies the
player id, the summary table has exactly one row per player of the
annotated history, whose `total_points`, `defensive_contribution` and
`bonus` are the sums over exactly that player's annotated rows, and whose
`total_value` is `round(total_points / price, 2)`; without key
distinctness, players sharing a key are merged into one pooled row (see
the counterexample). -/
theorem C5_summary_per_player (slim : List SlimRow) (hist : List PHistRow)
    (teams : List String) (pos : String) (w : Nat)
    (H1 : ∀ r ∈ annOf slim hist teams pos w, (gkey r).isSome)
    (H2 : ∀ r ∈ annOf slim hist teams pos w, ∀ t ∈ annOf slim hist teams pos w,
        (gkey r = gkey t ↔ r.element = t.element)) :
    ((tblOf slim hist teams pos w).map sumKey).Nodup
    ∧ (∀ r ∈ annOf slim hist teams pos w, ∃ s ∈ tblOf slim hist teams pos w,
        some (sumKey s) = gkey r
        ∧ s.total_points = (((annOf slim hist teams pos w).filter
            (fun x => x.element == r.element)).map (fun x => x.total_points)).sum
        ∧ s.defensive_contribution = (((annOf slim hist teams pos w).filter
            (fun x => x.element == r.element)).map
              (fun x => x.defensive_contribution)).sum
        ∧ s.bonus = (((annOf slim hist teams pos w).filter
            (fun x => x.element == r.element)).map (fun x => x.bonus)).sum
        ∧ s.total_value = round2 (pdiv s.total_points (some s.price)))
    ∧ (∀ s ∈ tblOf slim hist teams pos w, ∃ r ∈ annOf slim hist teams pos w,
        some (sumKey s) = gkey r) := by
  refine ⟨?_, ?_, ?_⟩
  · rw [tblOf_eq]
    have hperm : List.Perm ((isort sumLe (groupAgg (annOf slim hist teams pos w))).map sumKey)
        ((groupAgg (annOf slim hist teams pos w)).map sumKey) :=
      (isort_perm sumLe _).map sumKey
    apply (hperm.nodup_iff).mpr
    unfold groupAgg
    rw [List.map_map]
    have hid : ((isort keyLe ((annOf slim hist teams pos w).filterMap gkey).dedup).map
        (sumKey ∘ aggRow (annOf slim hist teams pos w)))
        = isort keyLe ((annOf slim hist teams pos w).filterMap gkey).dedup := by
      have h1 : ((isort keyLe ((annOf slim hist teams pos w).filterMap gkey).dedup).map
          (sumKey ∘ aggRow (annOf slim hist teams pos w)))
          = (isort keyLe ((annOf slim hist teams pos w).filterMap gkey).dedup).map id :=
        List.map_congr_left (fun k _ => sumKey_aggRow _ k)
      rw [h1, List.map_id]
    rw [hid]
    exact ((isort_perm keyLe _).nodup_iff).mpr (List.nodup_dedup _)
  · intro r hr
    obtain ⟨k, hk⟩ := Option.isSome_iff_exists.mp (H1 r hr)
    have hkmem : k ∈ (annOf slim hist teams pos w).filterMap gkey :=
      List.mem_filterMap.mpr ⟨r, hr, hk⟩
    refine ⟨aggRow (annOf slim hist teams pos w) k, ?_, ?_, ?_, ?_, ?_, rfl⟩
    · rw [tblOf_eq]
      exact mem_isort.mpr (mem_groupAgg.mpr ⟨k, hkmem, rfl⟩)
    · rw [sumKey_aggRow, hk]
    · show ((((annOf slim hist teams pos w).filter
          (fun x => gkey x == some k)).map (fun x => x.total_points)).sum) = _
      rw [List.filter_congr (fun x hx => ?_)]
      rw [Bool.eq_iff_iff, beq_iff_eq, beq_iff_eq, ← hk]
      exact H2 x hx r hr
    · show ((((annOf slim hist teams pos w).filter
          (fun x => gkey x == some k)).map (fun x => x.defensive_contribution)).sum) = _
      rw [List.filter_congr (fun x hx => ?_)]
      rw [Bool.eq_iff_iff, beq_iff_eq, beq_iff_eq, ← hk]
      exact H2 x hx r hr
    · show ((((annOf slim hist teams pos w).filter
          (fun x => gkey x == some k)).map (fun x => x.bonus)).sum) = _
      rw [List.filter_congr (fun x hx => ?_)]
      rw [Bool.eq_iff_iff, beq_iff_eq, beq_iff_eq, ← hk]
      exact H2 x hx r hr
  · intro s hs
    rw [tblOf_eq] at hs
    obtain ⟨k, hkmem, rfl⟩ := mem_groupAgg.mp (mem_isort.mp hs)
    obtain ⟨r, hr, hgk⟩ := List.mem_filterMap.mp hkmem
    exact ⟨r, hr, by rw [sumKey_aggRow, hgk]⟩

/-- Roster for the C5 counterexample: two distinct player ids share the
display name, team, position and price. -/
def slimC5 : List SlimRow :=
  [{ id := 1, minutes := 90, transfers_in := 0, total_points := 5,
     position := some ("Midfielder"), team_name := some ("Arsenal"),
     price := 5, player := "John Smith" },
   { id := 2, minutes := 80, transfers_in := 0, total_points := 7,
     position := some ("Midfielder"), team_name := some ("Arsenal"),
     price := 5, player := "John Smith" }]

/-- One round for each of the two same-named players. -/
def histC5 : List PHistRow :=
  [{ element := 1, round := 1, total_points := 5, defensive_contribution := 0,
     bonus := 0, player := some ("John Smith") },
   { element := 2, round := 1, total_points := 7, defensive_contribution := 0,
     bonus := 0, player := some ("John Smith") }]

/-- Claim C5 as stated is false: two distinct players (ids 1 and 2) are
present in the annotated history, but the summary table holds a single
merged row whose `total_points` (12) pools both players' sums (5 and 7),
so there is not one row per player with that player's own sum. -/
theorem C5_counterexample :
    ((annOf slimC5 histC5 [] "All" 0).map (fun r => r.element)).dedup.length = 2
    ∧ (tblOf slimC5 histC5 [] "All" 0).length = 1
    ∧ (tblOf slimC5 histC5 [] "All" 0).map (fun s => s.total_points) = [12] := by
  refine ⟨by decide, by decide, by decide⟩

/-- Witness for C5 at a concrete input with distinct, fully resolved
group keys. -/
theorem C5_witness :
    ((∀ r ∈ annOf slimC4 histC4 [] "All" 0, (gkey r).isSome)
      ∧ (∀ r ∈ annOf slimC4 histC4 [] "All" 0, ∀ t ∈ annOf slimC4 histC4 [] "All" 0,
          (gkey r = gkey t ↔ r.element = t.element)))
    ∧ ((tblOf slimC4 histC4 [] "All" 0).map sumKey).Nodup
    ∧ (∀ s ∈ tblOf slimC4 histC4 [] "All" 0, ∃ r ∈ annOf slimC4 histC4 [] "All" 0,
        some (sumKey s) = gkey r) :=
  ⟨⟨by decide, by decide⟩,
    (C5_summary_per_player slimC4 histC4 [] "All" 0 (by decide) (by decide)).1,
    (C5_summary_per_player slimC4 histC4 [] "All" 0 (by decide) (by decide)).2.2⟩

end FPL
